import Mathlib

/-!
# go-docker-machine: a shallow embedding of `dm.go`

The package is a thin layer over the `docker-machine` command.  Everything it
calls outside the repository is a field of `Ext`: the process runner behind
`(*exec.Cmd).CombinedOutput`, `json.Unmarshal` at the two target types,
`tlsconfig.Client`, `client.NewClient`, `client.DefaultVersion`, and the
`Error()` method of error values made outside the package.  The world the
external calls read and change is an explicit state `σ` threaded through every
call, in program order.

Conventions.
* Go `string` and `[]byte` holding command output are Lean `String`s (the
  output is taken to be UTF-8 text).
* A Go result pair `(v, err)` is a Lean pair `(v, err?)` with `err? = none` for
  a nil error.  A nil slice is `[]`, a nil pointer or nil map is `none`.
* `int` is `Int` (no arithmetic is done on it; it is only compared and printed).
-/

set_option maxRecDepth 100000

namespace dm

/-! ## Standard-library functions used by the source -/

namespace unicode

/-- Go `unicode.IsSpace`: the code points with the Unicode White_Space
property, which in Latin-1 are tab, line feed, vertical tab, form feed,
carriage return, space, U+0085 and U+00A0. -/
def IsSpace (c : Char) : Bool :=
  let n := c.toNat
  (9 ≤ n && n ≤ 13) || n == 32 || n == 0x85 || n == 0xA0 || n == 0x1680 ||
    (0x2000 ≤ n && n ≤ 0x200A) || n == 0x2028 || n == 0x2029 || n == 0x202F ||
    n == 0x205F || n == 0x3000

end unicode

namespace strings

/-- The pieces of `s` between occurrences of the separator character. The
result always has one more piece than there are separators, so the empty
input gives one empty piece. -/
def splitChars (sep : Char) : List Char → List (List Char)
  | [] => [[]]
  | c :: cs =>
    if c = sep then [] :: splitChars sep cs
    else
      match splitChars sep cs with
      | [] => [[c]]
      | l :: ls => (c :: l) :: ls

/-- Go `strings.Split(s, sep)` for a one-character separator, the only way
the source calls it (`sep = "\n"`). -/
def Split (s : String) (sep : Char) : List String :=
  (splitChars sep s.data).map String.mk

/-- Leading and trailing white space removed from a list of characters. -/
def trimChars (cs : List Char) : List Char :=
  ((cs.dropWhile unicode.IsSpace).reverse.dropWhile unicode.IsSpace).reverse

/-- Go `strings.TrimSpace`: all leading and trailing white space, as
`unicode.IsSpace` defines it, removed. -/
def TrimSpace (s : String) : String :=
  String.mk (trimChars s.data)

end strings

/-! ## Errors -/

/-- A Go `error` value as this package sees it: either a value made outside
the package (by the command runner, `encoding/json`, `tlsconfig` or the
engine-api client), carried unchanged, or a value made here by `fmt.Errorf`
with the given text. -/
inductive GoError (ε : Type) where
  | foreign (e : ε)
  | errorf (msg : String)
deriving DecidableEq, Repr

/-! ## Data model (`dm.go`, lines 16-68) -/

/-- DefaultDockerMachinePath is the default path to `docker-machine`. -/
def DefaultDockerMachinePath : String := "docker-machine"

/-- ExepctedMachineConfigVersions are expected, but not mandatory. A package
variable, taken at the value it is declared with. -/
def ExepctedMachineConfigVersions : List Int := [3]

/-- The part of an `*exec.Cmd` that `exec.Command` fills in from its arguments:
the program and the argument vector, whose first entry is the program. -/
structure Cmd where
  Path : String
  Args : List String
deriving DecidableEq, Repr

/-- Go `exec.Command(name, arg...)`. -/
def exec.Command (name : String) (arg : List String) : Cmd :=
  { Path := name, Args := name :: arg }

/-- commandExecutor is used to run `*exec.Cmd`: it returns the captured output
and an error, and may change the world. -/
abbrev commandExecutor (ε σ : Type) := Cmd → σ → (String × Option ε) × σ

/-- DockerMachine is an instance of `docker-machine`. -/
structure DockerMachine (ε σ : Type) where
  Path : String
  commandExecutor : Option (commandExecutor ε σ)

/-- MachineState is a state of a machine. -/
abbrev MachineState := String

/-- Machine is a result of `docker-machine ls`. -/
structure Machine where
  Name : String
  State : MachineState
  URL : String
deriving DecidableEq, Repr

/-- EngineOptions is included in a result of `docker-machine inspect`. -/
structure EngineOptions where
  TLSVerify : Bool
deriving DecidableEq, Repr

/-- AuthOptions is included in a result of `docker-machine inspect`. -/
structure AuthOptions where
  CaCertPath : String
  ClientCertPath : String
  ClientKeyPath : String
  StorePath : String
deriving DecidableEq, Repr

/-- HostOptions is included in a result of `docker-machine inspect`. -/
structure HostOptions where
  EngineOptions : EngineOptions
  AuthOptions : AuthOptions
deriving DecidableEq, Repr

/-- MachineConfig is a result of `docker-machine inspect`. -/
structure MachineConfig where
  ConfigVersion : Int
  HostOptions : HostOptions
deriving DecidableEq, Repr

/-- The zero value `Machine{}`. -/
def Machine.zero : Machine := { Name := "", State := "", URL := "" }

/-- The zero value of `MachineConfig` (`var config MachineConfig`). -/
def MachineConfig.zero : MachineConfig :=
  { ConfigVersion := 0,
    HostOptions :=
      { EngineOptions := { TLSVerify := false },
        AuthOptions := { CaCertPath := "", ClientCertPath := "", ClientKeyPath := "", StorePath := "" } } }

/-- The fields of `tlsconfig.Options` that the source sets. -/
structure tlsconfig.Options where
  CAFile : String
  CertFile : String
  KeyFile : String
  InsecureSkipVerify : Bool
deriving DecidableEq, Repr

/-- The `*http.Client` the source builds: a client whose transport carries the
TLS configuration and nothing else. -/
structure HttpClient (T : Type) where
  TLSClientConfig : Option T
deriving DecidableEq, Repr

/-- A Go `map[string]string`, by its lookups. -/
abbrev StringMap := String → Option String

/-- The map after `m[k] = v`. -/
def StringMap.set (m : StringMap) (k v : String) : StringMap :=
  fun q => if q = k then some v else m q

/-- The result of `make(map[string]string, 0)`. -/
def StringMap.make : StringMap := fun _ => none

/-- What the package calls outside the repository. `ε` is the type of error
values made outside the package, `σ` the state of the world, `T` the type of
a `tls.Config` and `C` the type of an engine-api client. -/
structure Ext (ε σ T C : Type) where
  /-- The `Error()` text of an outside error, as the verb `%v` prints it. -/
  errorText : ε → String
  /-- The method `(*exec.Cmd).CombinedOutput`. -/
  CombinedOutput : commandExecutor ε σ
  /-- The call `json.Unmarshal(data, &machine)` on a zero `Machine`: the value
  of `machine` afterwards and the error. -/
  unmarshalMachine : String → Machine × Option ε
  /-- The call `json.Unmarshal(data, &config)` on a zero `MachineConfig`. -/
  unmarshalMachineConfig : String → MachineConfig × Option ε
  /-- The loader `tlsconfig.Client(options)`, which reads the named files. -/
  tlsconfigClient : tlsconfig.Options → σ → (Option T × Option ε) × σ
  /-- The constructor `client.NewClient(host, version, httpClient, httpHeaders)`. -/
  NewClient : String → String → Option (HttpClient T) → Option StringMap → σ →
    (Option C × Option ε) × σ
  /-- The constant `client.DefaultVersion`. -/
  DefaultVersion : String

/-- Go `err.Error()`, which `%v` prints. -/
def GoError.Error {ε σ T C : Type} (ext : Ext ε σ T C) : GoError ε → String
  | .foreign e => ext.errorText e
  | .errorf msg => msg

/-- The verb `%d` on an `int`. -/
def fmt.d (n : Int) : String := toString n

/-- The verb `%v` on an `[]int`: the elements in decimal, separated by one
space, in square brackets. -/
def fmt.vInts (xs : List Int) : String :=
  "[" ++ " ".intercalate (xs.map fmt.d) ++ "]"

/-! ## Operations (`dm.go`, lines 70-217) -/

/-- NewDockerMachine instantiates DockerMachine. -/
def NewDockerMachine {ε σ : Type} : DockerMachine ε σ :=
  { Path := DefaultDockerMachinePath, commandExecutor := none }

def defaultCommandExecutor {ε σ T C : Type} (ext : Ext ε σ T C) (cmd : Cmd) (w : σ) :
    (String × Option ε) × σ :=
  ext.CombinedOutput cmd w

namespace DockerMachine

variable {ε σ T C : Type}

def rawCommandResult (ext : Ext ε σ T C) (d : DockerMachine ε σ) (command : String)
    (arg : List String) (w : σ) : (String × Option ε) × σ :=
  let cmd := exec.Command command arg
  match d.commandExecutor with
  | some f => f cmd w
  | none => defaultCommandExecutor ext cmd w

/-- RawCommandResult returns a raw `docker-machine` command result with arg. -/
def RawCommandResult (ext : Ext ε σ T C) (d : DockerMachine ε σ) (arg : List String) (w : σ) :
    (String × Option ε) × σ :=
  rawCommandResult ext d d.Path arg w

/-- The format template handed to `docker-machine ls -f`. -/
def Machines.filter : String :=
  "\x7b\"Name\":\"\x7b\x7b.Name\x7d\x7d\",\"State\":\"\x7b\x7b.State\x7d\x7d\",\"URL\":\"\x7b\x7b.URL\x7d\x7d\"\x7d"

/-- The `for _, s := range strings.Split(...)` loop of `Machines`, started
with the lines still to visit and the slice `machines` built so far. -/
def Machines.loop (ext : Ext ε σ T C) : List String → List Machine →
    List Machine × Option (GoError ε)
  | [], machines => (machines, none)
  | s :: rest, machines =>
    let s := strings.TrimSpace s
    if s = "" then Machines.loop ext rest machines
    else
      match ext.unmarshalMachine s with
      | (_, some err) =>
        ([], some (.errorf ("error while parsing \"" ++ s ++ "\": " ++ ext.errorText err)))
      | (machine, none) => Machines.loop ext rest (machines ++ [machine])

/-- Machines returns the list of machines (`docker-machine ls`). -/
def Machines (ext : Ext ε σ T C) (d : DockerMachine ε σ) (w : σ) :
    (List Machine × Option (GoError ε)) × σ :=
  match RawCommandResult ext d ["ls", "-f", Machines.filter] w with
  | ((_, some err), w1) => (([], some (.foreign err)), w1)
  | ((bytes, none), w1) => (Machines.loop ext (strings.Split bytes '\n') [], w1)

/-- The `for _, machine := range machines` loop of `Machine`: the first
machine whose name is `name`, if the loop returns from inside. -/
def Machine.loop (name : String) : List dm.Machine → Option dm.Machine
  | [] => none
  | machine :: rest => if machine.Name = name then some machine else Machine.loop name rest

/-- Machine returns the machine (`docker-machine ls`). -/
def Machine (ext : Ext ε σ T C) (d : DockerMachine ε σ) (name : String) (w : σ) :
    (dm.Machine × Option (GoError ε)) × σ :=
  match Machines ext d w with
  | ((_, some err), w1) => ((Machine.zero, some err), w1)
  | ((machines, none), w1) =>
    match Machine.loop name machines with
    | some machine => ((machine, none), w1)
    | none => ((Machine.zero, some (.errorf ("machine " ++ name ++ " not found"))), w1)

/-- Inspect inspects the machine (`docker-machine inspect`). -/
def Inspect (ext : Ext ε σ T C) (d : DockerMachine ε σ) (name : String) (w : σ) :
    (MachineConfig × Option (GoError ε)) × σ :=
  let config := MachineConfig.zero
  match RawCommandResult ext d ["inspect", name] w with
  | ((_, some err), w1) => ((config, some (.foreign err)), w1)
  | ((bytes, none), w1) =>
    match ext.unmarshalMachineConfig bytes with
    | (config, some err) => ((config, some (.foreign err)), w1)
    | (config, none) => ((config, none), w1)

/-- The `for _, ver := range` loop of `annotateError` over the versions still
to compare: whether it returns from inside. -/
def annotateError.loop (config : MachineConfig) : List Int → Bool
  | [] => false
  | ver :: rest => if ver = config.ConfigVersion then true else annotateError.loop config rest

def annotateError (ext : Ext ε σ T C) (err : GoError ε) (config : MachineConfig)
    (whilst : String) : GoError ε :=
  if annotateError.loop config ExepctedMachineConfigVersions then
    .errorf ("error while " ++ whilst ++ ": " ++ err.Error ext)
  else
    .errorf ("error while " ++ whilst ++ ", maybe due to unsupported config version " ++
      fmt.d config.ConfigVersion ++ " (expected " ++ fmt.vInts ExepctedMachineConfigVersions ++
      "): " ++ err.Error ext)

/-- The local variable `options` of `tlsConfig`. -/
def tlsConfig.options (config : MachineConfig) : tlsconfig.Options :=
  let eopt := config.HostOptions.EngineOptions
  let aopt := config.HostOptions.AuthOptions
  { CAFile := aopt.CaCertPath,
    CertFile := aopt.ClientCertPath,
    KeyFile := aopt.ClientKeyPath,
    InsecureSkipVerify := !eopt.TLSVerify }

def tlsConfig (ext : Ext ε σ T C) (config : MachineConfig) (w : σ) :
    (Option T × Option ε) × σ :=
  ext.tlsconfigClient (tlsConfig.options config) w

def client (ext : Ext ε σ T C) (machine : dm.Machine) (config : MachineConfig)
    (apiVersion : String) (w : σ) : (Option C × Option (GoError ε)) × σ :=
  match tlsConfig ext config w with
  | ((_, some err), w1) => ((none, some (annotateError ext (.foreign err) config "tlsConfig")), w1)
  | ((tlsc, none), w1) =>
    let httpc : HttpClient T := { TLSClientConfig := tlsc }
    let host := machine.URL
    match ext.NewClient host apiVersion (some httpc) none w1 with
    | ((c, err), w2) => ((c, err.map GoError.foreign), w2)

/-- Client returns the engine-api client for the machine. The API version is
set to `client.DefaultVersion`. -/
def Client (ext : Ext ε σ T C) (d : DockerMachine ε σ) (name : String) (w : σ) :
    (Option C × Option (GoError ε)) × σ :=
  match Machine ext d name w with
  | ((_, some err), w1) => ((none, some err), w1)
  | ((machine, none), w1) =>
    match Inspect ext d name w1 with
    | ((_, some err), w2) => ((none, some err), w2)
    | ((config, none), w2) =>
      let apiVersion := ext.DefaultVersion
      client ext machine config apiVersion w2

/-- Env returns string map that contains
`DOCKER_TLS_VERIFY`, `DOCKER_HOST`, `DOCKER_CERT_PATH` and `DOCKER_MACHINE_NAME`. -/
def Env (ext : Ext ε σ T C) (d : DockerMachine ε σ) (name : String) (w : σ) :
    (Option StringMap × Option (GoError ε)) × σ :=
  let env := StringMap.make
  match Machine ext d name w with
  | ((_, some err), w1) => ((none, some err), w1)
  | ((machine, none), w1) =>
    match Inspect ext d name w1 with
    | ((_, some err), w2) => ((none, some err), w2)
    | ((config, none), w2) =>
      let eopt := config.HostOptions.EngineOptions
      let aopt := config.HostOptions.AuthOptions
      let tlsVerify := if eopt.TLSVerify then "1" else "0"
      let env := env.set "DOCKER_TLS_VERIFY" tlsVerify
      let env := env.set "DOCKER_HOST" machine.URL
      let env := env.set "DOCKER_CERT_PATH" aopt.StorePath
      let env := env.set "DOCKER_MACHINE_NAME" name
      ((some env, none), w2)

end DockerMachine

/-! ## Auxiliary definitions used to state the properties -/

namespace strings

/-- The pieces joined with the separator character between them. -/
def joinChars (sep : Char) : List (List Char) → List Char
  | [] => []
  | [l] => l
  | l :: l2 :: ls => l ++ sep :: joinChars sep (l2 :: ls)

/-- Go `strings.Join(elems, sep)` for a one-character separator: with
`sep = "\n"`, the text whose lines are `elems`. -/
def Join (elems : List String) (sep : Char) : String :=
  String.mk (joinChars sep (elems.map String.data))

/-- Every character of the string is white space for `unicode.IsSpace`. -/
def AllSpace (s : String) : Prop := ∀ c ∈ s.data, unicode.IsSpace c = true

/-- Every character of the string is white space other than the line feed:
padding that can be added inside one line. -/
def Padding (s : String) : Prop := ∀ c ∈ s.data, unicode.IsSpace c = true ∧ c ≠ '\n'

/-- The string has no line feed: it is a single line. -/
def SingleLine (s : String) : Prop := '\n' ∉ s.data

instance (s : String) : Decidable (AllSpace s) := by unfold AllSpace; infer_instance
instance (s : String) : Decidable (Padding s) := by unfold Padding; infer_instance
instance (s : String) : Decidable (SingleLine s) := by unfold SingleLine; infer_instance

end strings

/-- The lines `Machines` hands to the JSON decoder: every line of the output
with its white space trimmed, the ones that are then empty left out. -/
def nonBlankLines (o : String) : List String :=
  ((strings.Split o '\n').map strings.TrimSpace).filter (fun s => s ≠ "")

/-- The error `Machines` returns for a line that fails to parse:
`fmt.Errorf("error while parsing \"%s\": %v", s, err)`. -/
def parseErrorText {ε σ T C : Type} (ext : Ext ε σ T C) (s : String) (err : ε) : String :=
  "error while parsing \"" ++ s ++ "\": " ++ ext.errorText err

/-- The loop of `Machines` run on lines that are already trimmed and not
empty. -/
def parseLines {ε σ T C : Type} (ext : Ext ε σ T C) : List String → List Machine →
    List Machine × Option (GoError ε)
  | [], machines => (machines, none)
  | s :: rest, machines =>
    match ext.unmarshalMachine s with
    | (_, some err) => ([], some (.errorf (parseErrorText ext s err)))
    | (machine, none) => parseLines ext rest (machines ++ [machine])

/-- One edit of a listing output that touches only padding: white space added
around one line, a white-space-only line inserted between lines, or a line
feed added at the end. The output is given by its lines, joined with line
feeds. -/
inductive PaddingEdit : String → String → Prop where
  | pad (pre post : List String) (p1 l p2 : String) :
      strings.Padding p1 → strings.SingleLine l → strings.Padding p2 →
      PaddingEdit (strings.Join (pre ++ l :: post) '\n')
        (strings.Join (pre ++ (p1 ++ l ++ p2) :: post) '\n')
  | blank (pre post : List String) (b : String) :
      strings.AllSpace b →
      PaddingEdit (strings.Join (pre ++ post) '\n') (strings.Join (pre ++ b :: post) '\n')
  | newline (o : String) : PaddingEdit o (o ++ "\n")

/-! ## A test double

A substituted command executor that answers from fixed texts and records the
commands it is given, and decoders given by tables. -/

namespace sample

def line1 : String :=
  "\x7b\"Name\":\"m1\",\"State\":\"Running\",\"URL\":\"tcp://10.0.0.1:2376\"\x7d"

def line2 : String :=
  "\x7b\"Name\":\"m2\",\"State\":\"Stopped\",\"URL\":\"tcp://10.0.0.2:2376\"\x7d"

/-- A second line for the name `m1`, with another URL. -/
def line1b : String :=
  "\x7b\"Name\":\"m1\",\"State\":\"Stopped\",\"URL\":\"tcp://10.0.0.9:2376\"\x7d"

def lineMy : String :=
  "\x7b\"Name\":\"mymachine\",\"State\":\"Running\",\"URL\":\"tcp://1.2.3.4:2376\"\x7d"

def m1 : Machine := { Name := "m1", State := "Running", URL := "tcp://10.0.0.1:2376" }

def m2 : Machine := { Name := "m2", State := "Stopped", URL := "tcp://10.0.0.2:2376" }

def m1b : Machine := { Name := "m1", State := "Stopped", URL := "tcp://10.0.0.9:2376" }

def mMy : Machine := { Name := "mymachine", State := "Running", URL := "tcp://1.2.3.4:2376" }

def configDoc : String :=
  "\x7b\"ConfigVersion\":3,\"HostOptions\":\x7b\"EngineOptions\":\x7b\"TlsVerify\":true\x7d," ++
  "\"AuthOptions\":\x7b\"CaCertPath\":\"/home/u/.docker/machine/certs/ca.pem\"," ++
  "\"ClientCertPath\":\"/home/u/.docker/machine/certs/cert.pem\"," ++
  "\"ClientKeyPath\":\"/home/u/.docker/machine/certs/key.pem\"," ++
  "\"StorePath\":\"/home/u/.docker/machine/certs\"\x7d\x7d\x7d"

def config : MachineConfig :=
  { ConfigVersion := 3,
    HostOptions :=
      { EngineOptions := { TLSVerify := true },
        AuthOptions :=
          { CaCertPath := "/home/u/.docker/machine/certs/ca.pem",
            ClientCertPath := "/home/u/.docker/machine/certs/cert.pem",
            ClientKeyPath := "/home/u/.docker/machine/certs/key.pem",
            StorePath := "/home/u/.docker/machine/certs" } } }

/-- The same configuration with a version outside the expected ones. -/
def configV2 : MachineConfig := { config with ConfigVersion := 2 }

/-- What `json.Unmarshal` into a `Machine` gives on the texts used in this
file. The last row only makes the table total: no property below consults it
on another text. -/
def unmarshalMachine (s : String) : Machine × Option String :=
  if s = line1 then (m1, none)
  else if s = line2 then (m2, none)
  else if s = line1b then (m1b, none)
  else if s = lineMy then (mMy, none)
  else if s = "x" then
    (Machine.zero, some "invalid character 'x' looking for beginning of value")
  else (Machine.zero, some "unexpected end of JSON input")

/-- What `json.Unmarshal` into a `MachineConfig` gives on the texts used in
this file; the last row only makes the table total. -/
def unmarshalMachineConfig (s : String) : MachineConfig × Option String :=
  if s = configDoc then (config, none)
  else (MachineConfig.zero, some "unexpected end of JSON input")

/-- An executor that answers `ls` and `inspect` from the given results and
appends the command to the record of commands run. -/
def run (ls inspect : String × Option String) : commandExecutor String (List Cmd) :=
  fun cmd record => (if cmd.Args.get? 1 = some "ls" then ls else inspect, record ++ [cmd])

/-- The outside world of the test double. The TLS loader fails with `tlsErr`
when it is given, and otherwise returns the options it was handed; the client
constructor returns the host and the version it was handed. -/
def ext (tlsErr : Option String) : Ext String (List Cmd) tlsconfig.Options (String × String) where
  errorText := id
  CombinedOutput := run ("", some "exec: \"docker-machine\": executable file not found in $PATH")
    ("", some "exec: \"docker-machine\": executable file not found in $PATH")
  unmarshalMachine := unmarshalMachine
  unmarshalMachineConfig := unmarshalMachineConfig
  tlsconfigClient := fun options w =>
    match tlsErr with
    | some e => ((none, some e), w)
    | none => ((some options, none), w)
  NewClient := fun host version _ _ w => ((some (host, version), none), w)
  DefaultVersion := "1.22"

/-- A `DockerMachine` with the recording executor substituted. -/
def machine (ls inspect : String × Option String) : DockerMachine String (List Cmd) :=
  { Path := DefaultDockerMachinePath, commandExecutor := some (run ls inspect) }

/-- The two-line listing of the machines `m1` and `m2`. -/
def listing : String := line1 ++ "\n" ++ line2

/-- The test double that lists `m1` and `m2` and inspects to `config`. -/
def lister : DockerMachine String (List Cmd) := machine (listing, none) (configDoc, none)

/-- The record after one run of the `ls` command. -/
def lsRecord : List Cmd := [exec.Command "docker-machine" ["ls", "-f", DockerMachine.Machines.filter]]

end sample

/-! ## Lemmas on the string functions -/

namespace strings

theorem dropWhile_append_all {p : Char → Bool} (w l : List Char) (hw : ∀ c ∈ w, p c = true) :
    (w ++ l).dropWhile p = l.dropWhile p := by
  induction w with
  | nil => rfl
  | cons c w ih =>
    have hc : p c = true := hw c (List.mem_cons_self _ _)
    simp only [List.cons_append, List.dropWhile_cons, hc, if_true]
    exact ih (fun x hx => hw x (List.mem_cons_of_mem _ hx))

theorem dropWhile_all {p : Char → Bool} (w : List Char) (hw : ∀ c ∈ w, p c = true) :
    w.dropWhile p = [] := by
  have := dropWhile_append_all w [] hw
  simpa using this

theorem trimChars_all {w : List Char} (hw : ∀ c ∈ w, unicode.IsSpace c = true) :
    trimChars w = [] := by
  simp [trimChars, dropWhile_all w hw]

theorem trimChars_pad (w1 l w2 : List Char) (h1 : ∀ c ∈ w1, unicode.IsSpace c = true)
    (h2 : ∀ c ∈ w2, unicode.IsSpace c = true) :
    trimChars (w1 ++ l ++ w2) = trimChars l := by
  unfold trimChars
  rw [List.append_assoc, dropWhile_append_all w1 _ h1]
  by_cases hl : l.dropWhile unicode.IsSpace = []
  · have hall : ∀ c ∈ l, unicode.IsSpace c = true := by
      simpa [List.dropWhile_eq_nil_iff] using hl
    rw [dropWhile_append_all l _ hall, dropWhile_all w2 h2, hl]
  · have : (l ++ w2).dropWhile unicode.IsSpace = l.dropWhile unicode.IsSpace ++ w2 := by
      rw [List.dropWhile_append]
      simp [hl]
    rw [this, List.reverse_append,
      dropWhile_append_all w2.reverse _ (fun c hc => h2 c (List.mem_reverse.mp hc))]

theorem splitChars_ne_nil (sep : Char) (l : List Char) : splitChars sep l ≠ [] := by
  induction l with
  | nil => simp [splitChars]
  | cons c cs ih =>
    unfold splitChars
    split
    · simp
    · split <;> simp

theorem splitChars_cons_ne {sep c : Char} (cs : List Char) (hc : c ≠ sep) :
    splitChars sep (c :: cs) =
      (match splitChars sep cs with
       | [] => [[c]]
       | l :: ls => (c :: l) :: ls) := by
  simp [splitChars, hc]

theorem splitChars_append (sep : Char) (a b : List Char) :
    splitChars sep (a ++ sep :: b) = splitChars sep a ++ splitChars sep b := by
  induction a with
  | nil => simp [splitChars]
  | cons c cs ih =>
    by_cases hc : c = sep
    · subst hc
      simp [splitChars, ih]
    · have hne := splitChars_ne_nil sep cs
      rw [List.cons_append, splitChars_cons_ne _ hc, splitChars_cons_ne _ hc, ih]
      cases hs : splitChars sep cs with
      | nil => exact absurd hs hne
      | cons l ls => simp

theorem splitChars_single (sep : Char) (l : List Char) (h : sep ∉ l) :
    splitChars sep l = [l] := by
  induction l with
  | nil => rfl
  | cons c cs ih =>
    have hc : c ≠ sep := fun e => h (e ▸ List.mem_cons_self _ _)
    have hcs : sep ∉ cs := fun e => h (List.mem_cons_of_mem _ e)
    simp [splitChars, hc, ih hcs]

theorem splitChars_all {p : Char → Bool} (sep : Char) (l : List Char)
    (h : ∀ c ∈ l, p c = true) : ∀ piece ∈ splitChars sep l, ∀ c ∈ piece, p c = true := by
  induction l with
  | nil => simp [splitChars]
  | cons c cs ih =>
    have hc : p c = true := h c (List.mem_cons_self _ _)
    have ih2 := ih (fun x hx => h x (List.mem_cons_of_mem _ hx))
    unfold splitChars
    split
    · intro piece hp
      rcases List.mem_cons.mp hp with rfl | hp
      · simp
      · exact ih2 piece hp
    · cases hs : splitChars sep cs with
      | nil => exact absurd hs (splitChars_ne_nil sep cs)
      | cons l ls =>
        rw [hs] at ih2
        intro piece hp
        rcases List.mem_cons.mp hp with rfl | hp
        · intro x hx
          rcases List.mem_cons.mp hx with rfl | hx
          · exact hc
          · exact ih2 l (List.mem_cons_self _ _) x hx
        · exact ih2 piece (List.mem_cons_of_mem _ hp)

theorem splitChars_joinChars (sep : Char) (l : List Char) (ls : List (List Char)) :
    splitChars sep (joinChars sep (l :: ls)) = (l :: ls).flatMap (splitChars sep) := by
  induction ls generalizing l with
  | nil => simp [joinChars]
  | cons l2 ls ih =>
    simp only [joinChars, splitChars_append, ih l2]
    simp

theorem joinChars_cons_cons (sep c : Char) (l : List Char) (ls : List (List Char)) :
    joinChars sep ((c :: l) :: ls) = c :: joinChars sep (l :: ls) := by
  cases ls <;> simp [joinChars]

theorem joinChars_splitChars (sep : Char) (l : List Char) :
    joinChars sep (splitChars sep l) = l := by
  induction l with
  | nil => rfl
  | cons c cs ih =>
    by_cases hc : c = sep
    · subst hc
      cases hs : splitChars c cs with
      | nil => exact absurd hs (splitChars_ne_nil c cs)
      | cons p ps =>
        rw [hs] at ih
        simp [splitChars, hs, joinChars, ih]
    · rw [splitChars_cons_ne _ hc]
      cases hs : splitChars sep cs with
      | nil => exact absurd hs (splitChars_ne_nil sep cs)
      | cons p ps =>
        rw [hs] at ih
        simp only [joinChars_cons_cons, ih]

/-- Every text is its lines joined with line feeds, so an output can be
given by its lines. -/
theorem Join_Split (o : String) (sep : Char) : Join (Split o sep) sep = o := by
  unfold Join Split
  rw [List.map_map]
  have : (String.data ∘ String.mk) = id := rfl
  rw [this, List.map_id, joinChars_splitChars]

end strings

theorem mk_ne_empty_iff (l : List Char) : String.mk l ≠ "" ↔ l ≠ [] := by
  constructor
  · intro h e
    exact h (by rw [e])
  · intro h e
    exact h (congrArg String.data e)

theorem nonBlankLines_eq (o : String) :
    nonBlankLines o =
      (((strings.splitChars '\n' o.data).map strings.trimChars).filter (fun l => l ≠ [])).map
        String.mk := by
  unfold nonBlankLines strings.Split
  rw [List.map_map]
  generalize strings.splitChars '\n' o.data = ps
  induction ps with
  | nil => rfl
  | cons p ps ih =>
    simp only [List.map_cons, Function.comp_apply, strings.TrimSpace]
    by_cases hp : strings.trimChars p = []
    · have h1 : ¬ (String.mk (strings.trimChars p) ≠ "") := by
        rw [mk_ne_empty_iff]; simpa using hp
      rw [List.filter_cons_of_neg (by simpa using h1),
        List.filter_cons_of_neg (by simpa using hp)]
      exact ih
    · have h1 : String.mk (strings.trimChars p) ≠ "" := (mk_ne_empty_iff _).mpr hp
      rw [List.filter_cons_of_pos (by simpa using h1),
        List.filter_cons_of_pos (by simpa using hp), List.map_cons]
      exact congrArg _ ih

/-- The lines parsed from a text are those parsed from its pieces, when the
text is the pieces put on lines of their own. -/
theorem nonBlankLines_Join (ls : List String) :
    nonBlankLines (strings.Join ls '\n') = ls.flatMap nonBlankLines := by
  cases ls with
  | nil => rfl
  | cons l ls =>
    rw [nonBlankLines_eq]
    simp only [strings.Join, List.map_cons, strings.splitChars_joinChars]
    have : ∀ xs : List String,
        (((xs.map String.data).flatMap (strings.splitChars '\n')).map strings.trimChars
          |>.filter (fun l => l ≠ [])).map String.mk = xs.flatMap nonBlankLines := by
      intro xs
      induction xs with
      | nil => rfl
      | cons x xs ih =>
        simp only [List.map_cons, List.flatMap_cons, List.map_append, List.filter_append, ih,
          nonBlankLines_eq]
    exact this (l :: ls)

theorem nonBlankLines_pad (w1 l w2 : String) (h1 : strings.Padding w1) (hl : strings.SingleLine l)
    (h2 : strings.Padding w2) : nonBlankLines (w1 ++ l ++ w2) = nonBlankLines l := by
  have hmem : '\n' ∉ (w1.data ++ l.data ++ w2.data) := by
    intro h
    rcases List.mem_append.mp h with h | h
    · rcases List.mem_append.mp h with h | h
      · exact (h1 _ h).2 rfl
      · exact hl h
    · exact (h2 _ h).2 rfl
  rw [nonBlankLines_eq, nonBlankLines_eq]
  simp only [String.data_append]
  rw [strings.splitChars_single _ _ hmem, strings.splitChars_single _ _ hl]
  simp only [List.map_cons, List.map_nil]
  rw [strings.trimChars_pad _ _ _ (fun c hc => (h1 c hc).1) (fun c hc => (h2 c hc).1)]

theorem nonBlankLines_blank (b : String) (hb : strings.AllSpace b) : nonBlankLines b = [] := by
  rw [nonBlankLines_eq]
  have h := strings.splitChars_all '\n' b.data hb
  generalize strings.splitChars '\n' b.data = ps at h
  induction ps with
  | nil => rfl
  | cons p ps ih =>
    have hp : strings.trimChars p = [] := strings.trimChars_all (h p (List.mem_cons_self _ _))
    simp only [List.map_cons]
    rw [List.filter_cons_of_neg (by simpa using hp)]
    exact ih (fun q hq => h q (List.mem_cons_of_mem _ hq))

theorem nonBlankLines_newline (o : String) : nonBlankLines (o ++ "\n") = nonBlankLines o := by
  rw [nonBlankLines_eq, nonBlankLines_eq]
  have : (o ++ "\n").data = o.data ++ '\n' :: [] := by simp
  rw [this, strings.splitChars_append]
  simp [strings.splitChars, strings.trimChars]

/-! ## Lemmas on the operations -/

namespace DockerMachine

variable {ε σ T C : Type}

theorem Machines.loop_eq (ext : Ext ε σ T C) (lines : List String) (machines : List dm.Machine) :
    Machines.loop ext lines machines =
      parseLines ext ((lines.map strings.TrimSpace).filter (fun s => s ≠ "")) machines := by
  induction lines generalizing machines with
  | nil => rfl
  | cons l ls ih =>
    unfold Machines.loop
    simp only [List.map_cons]
    by_cases hl : strings.TrimSpace l = ""
    · rw [if_pos hl, List.filter_cons_of_neg (by simpa using hl)]
      exact ih machines
    · rw [if_neg hl, List.filter_cons_of_pos (by simpa using hl)]
      unfold parseLines parseErrorText
      split
      · rfl
      · exact ih _

theorem parseLines_ok (ext : Ext ε σ T C) (ts : List String) (machines : List dm.Machine)
    (h : ∀ t ∈ ts, (ext.unmarshalMachine t).2 = none) :
    parseLines ext ts machines =
      (machines ++ ts.map (fun t => (ext.unmarshalMachine t).1), none) := by
  induction ts generalizing machines with
  | nil => simp [parseLines]
  | cons t ts ih =>
    have ht := h t (List.mem_cons_self _ _)
    unfold parseLines
    split
    · rename_i heq
      rw [heq] at ht
      cases ht
    · rename_i m heq
      rw [ih _ (fun x hx => h x (List.mem_cons_of_mem _ hx))]
      simp [heq]

theorem parseLines_fail (ext : Ext ε σ T C) (pre post : List String) (t : String) (e : ε)
    (machines : List dm.Machine) (hpre : ∀ x ∈ pre, (ext.unmarshalMachine x).2 = none)
    (ht : (ext.unmarshalMachine t).2 = some e) :
    parseLines ext (pre ++ t :: post) machines =
      ([], some (.errorf (parseErrorText ext t e))) := by
  induction pre generalizing machines with
  | nil =>
    simp only [List.nil_append]
    unfold parseLines
    split
    · rename_i heq
      rw [heq] at ht
      cases ht
      rfl
    · rename_i heq
      rw [heq] at ht
      cases ht
  | cons p pre ih =>
    have hp := hpre p (List.mem_cons_self _ _)
    simp only [List.cons_append]
    unfold parseLines
    split
    · rename_i heq
      rw [heq] at hp
      cases hp
    · exact ih _ (fun x hx => hpre x (List.mem_cons_of_mem _ hx))

/-! ## Properties -/

theorem nonBlankLines_eq_filter (o : String) :
    nonBlankLines o =
      ((strings.Split o '\n').filter (fun l => strings.TrimSpace l ≠ "")).map strings.TrimSpace := by
  unfold nonBlankLines
  rw [List.filter_map]
  rfl

theorem Machines_raw_ok (ext : Ext ε σ T C) (d : DockerMachine ε σ) (w w1 : σ) (o : String)
    (hrun : RawCommandResult ext d ["ls", "-f", Machines.filter] w = ((o, none), w1)) :
    Machines ext d w = (parseLines ext (nonBlankLines o) [], w1) := by
  unfold Machines
  rw [hrun]
  simp only [Machines.loop_eq]
  rfl

/-- C1: when the runner succeeds with an output whose every non-blank line,
trimmed, is decoded without error, `Machines` returns no error and the
machines decoded from the non-blank lines, one per line and in the order of
the lines. -/
theorem Machines_wellFormed (ext : Ext ε σ T C) (d : DockerMachine ε σ) (w w1 : σ) (o : String)
    (hrun : RawCommandResult ext d ["ls", "-f", Machines.filter] w = ((o, none), w1))
    (hwf : ∀ l ∈ strings.Split o '\n', strings.TrimSpace l ≠ "" →
      (ext.unmarshalMachine (strings.TrimSpace l)).2 = none) :
    Machines ext d w =
      ((((strings.Split o '\n').filter (fun l => strings.TrimSpace l ≠ "")).map
          (fun l => (ext.unmarshalMachine (strings.TrimSpace l)).1), none), w1) ∧
    (Machines ext d w).1.1.length =
      ((strings.Split o '\n').filter (fun l => strings.TrimSpace l ≠ "")).length := by
  have hall : ∀ t ∈ nonBlankLines o, (ext.unmarshalMachine t).2 = none := by
    intro t ht
    rw [nonBlankLines_eq_filter] at ht
    obtain ⟨l, hl, rfl⟩ := List.mem_map.mp ht
    have hl2 := List.mem_filter.mp hl
    exact hwf l hl2.1 (by simpa using hl2.2)
  have hM := Machines_raw_ok ext d w w1 o hrun
  rw [parseLines_ok ext _ _ hall, nonBlankLines_eq_filter, List.map_map, List.nil_append] at hM
  refine ⟨hM, ?_⟩
  rw [hM]
  simp

theorem Machines_wellFormed_witness :
    RawCommandResult (sample.ext none) sample.lister ["ls", "-f", Machines.filter] [] =
      ((sample.listing, none), sample.lsRecord) ∧
    (∀ l ∈ strings.Split sample.listing '\n', strings.TrimSpace l ≠ "" →
      ((sample.ext none).unmarshalMachine (strings.TrimSpace l)).2 = none) ∧
    Machines (sample.ext none) sample.lister [] =
      (([sample.m1, sample.m2], none), sample.lsRecord) :=
  ⟨by decide, by decide,
   (Machines_wellFormed (sample.ext none) sample.lister [] sample.lsRecord sample.listing
      (by decide) (by decide)).1.trans (by decide)⟩

/-- A list with an element satisfying `p` splits at the first such element. -/
theorem exists_first {α : Type} (p : α → Prop) (xs : List α) (h : ∃ x ∈ xs, p x) :
    ∃ pre x post, xs = pre ++ x :: post ∧ (∀ y ∈ pre, ¬ p y) ∧ p x := by
  induction xs with
  | nil =>
    obtain ⟨x, hx, _⟩ := h
    cases hx
  | cons a xs ih =>
    by_cases ha : p a
    · exact ⟨[], a, xs, rfl, fun y hy => (by cases hy), ha⟩
    · obtain ⟨x, hx, hpx⟩ := h
      have hx2 : x ∈ xs := by
        rcases List.mem_cons.mp hx with rfl | hx
        · exact absurd hpx ha
        · exact hx
      obtain ⟨pre, y, post, hsplit, hpre, hy⟩ := ih ⟨x, hx2, hpx⟩
      refine ⟨a :: pre, y, post, by rw [hsplit]; rfl, ?_, hy⟩
      intro z hz
      rcases List.mem_cons.mp hz with rfl | hz
      · exact ha
      · exact hpre z hz

theorem Machines.loop_fail (ext : Ext ε σ T C) (pre post : List String) (l : String) (e : ε)
    (machines : List dm.Machine)
    (hpre : ∀ x ∈ pre, ¬ (strings.TrimSpace x ≠ "" ∧
      (ext.unmarshalMachine (strings.TrimSpace x)).2 ≠ none))
    (hl : strings.TrimSpace l ≠ "")
    (he : (ext.unmarshalMachine (strings.TrimSpace l)).2 = some e) :
    Machines.loop ext (pre ++ l :: post) machines =
      ([], some (.errorf (parseErrorText ext (strings.TrimSpace l) e))) := by
  rw [Machines.loop_eq, List.map_append, List.filter_append, List.map_cons,
    List.filter_cons_of_pos (by simpa using hl)]
  apply parseLines_fail _ _ _ _ _ _ ?_ he
  intro x hx
  obtain ⟨hx1, hx2⟩ := List.mem_filter.mp hx
  obtain ⟨y, hy, rfl⟩ := List.mem_map.mp hx1
  have := hpre y hy
  have hne : strings.TrimSpace y ≠ "" := by simpa using hx2
  by_contra hcon
  exact this ⟨hne, hcon⟩

theorem infix_parseErrorText (ext : Ext ε σ T C) (s : String) (e : ε) :
    s.data <:+: (parseErrorText ext s e).data := by
  unfold parseErrorText
  simp only [String.data_append]
  exact ⟨"error while parsing \"".data, "\": ".data ++ (ext.errorText e).data, by simp⟩

/-- C2 (amended): when the runner succeeds and some non-blank line fails to
parse, `Machines` returns no machines and the error
`error while parsing "<line>": <parse error>` for the first such line, where
`<line>` is that line with its leading and trailing white space trimmed; the
message contains the trimmed line. -/
theorem Machines_malformed (ext : Ext ε σ T C) (d : DockerMachine ε σ) (w w1 : σ) (o : String)
    (hrun : RawCommandResult ext d ["ls", "-f", Machines.filter] w = ((o, none), w1))
    (hbad : ∃ l ∈ strings.Split o '\n', strings.TrimSpace l ≠ "" ∧
      (ext.unmarshalMachine (strings.TrimSpace l)).2 ≠ none) :
    ∃ pre l post e, strings.Split o '\n' = pre ++ l :: post ∧
      (∀ x ∈ pre, strings.TrimSpace x = "" ∨
        (ext.unmarshalMachine (strings.TrimSpace x)).2 = none) ∧
      strings.TrimSpace l ≠ "" ∧
      (ext.unmarshalMachine (strings.TrimSpace l)).2 = some e ∧
      Machines ext d w =
        (([], some (.errorf ("error while parsing \"" ++ strings.TrimSpace l ++ "\": " ++
          ext.errorText e))), w1) ∧
      (strings.TrimSpace l).data <:+:
        ("error while parsing \"" ++ strings.TrimSpace l ++ "\": " ++ ext.errorText e).data := by
  obtain ⟨pre, l, post, hsplit, hpre, hl, hne⟩ := exists_first _ _ hbad
  obtain ⟨e, he⟩ := Option.ne_none_iff_exists'.mp hne
  refine ⟨pre, l, post, e, hsplit, ?_, hl, he, ?_, infix_parseErrorText ext _ e⟩
  · intro x hx
    by_cases h1 : strings.TrimSpace x = ""
    · exact Or.inl h1
    · right
      by_contra hcon
      exact hpre x hx ⟨h1, hcon⟩
  · unfold Machines
    rw [hrun]
    simp only
    rw [hsplit, Machines.loop_fail ext pre post l e [] hpre hl he]
    rfl

theorem Machines_malformed_witness :
    RawCommandResult (sample.ext none)
        (sample.machine (sample.line1 ++ "\n\tx\r\n" ++ sample.line2, none) ("", none))
        ["ls", "-f", Machines.filter] [] =
      ((sample.line1 ++ "\n\tx\r\n" ++ sample.line2, none), sample.lsRecord) ∧
    (∃ l ∈ strings.Split (sample.line1 ++ "\n\tx\r\n" ++ sample.line2) '\n',
      strings.TrimSpace l ≠ "" ∧
        ((sample.ext none).unmarshalMachine (strings.TrimSpace l)).2 ≠ none) ∧
    ∃ pre l post e,
      strings.Split (sample.line1 ++ "\n\tx\r\n" ++ sample.line2) '\n' = pre ++ l :: post ∧
      (∀ x ∈ pre, strings.TrimSpace x = "" ∨
        ((sample.ext none).unmarshalMachine (strings.TrimSpace x)).2 = none) ∧
      strings.TrimSpace l ≠ "" ∧
      ((sample.ext none).unmarshalMachine (strings.TrimSpace l)).2 = some e ∧
      Machines (sample.ext none)
          (sample.machine (sample.line1 ++ "\n\tx\r\n" ++ sample.line2, none) ("", none)) [] =
        (([], some (.errorf ("error while parsing \"" ++ strings.TrimSpace l ++ "\": " ++
          (sample.ext none).errorText e))), sample.lsRecord) ∧
      (strings.TrimSpace l).data <:+:
        ("error while parsing \"" ++ strings.TrimSpace l ++ "\": " ++
          (sample.ext none).errorText e).data :=
  ⟨by decide, ⟨"\tx\r", by decide, by decide, by decide⟩,
   Machines_malformed (sample.ext none)
    (sample.machine (sample.line1 ++ "\n\tx\r\n" ++ sample.line2, none) ("", none)) []
    sample.lsRecord (sample.line1 ++ "\n\tx\r\n" ++ sample.line2) (by decide)
    ⟨"\tx\r", by decide, by decide, by decide⟩⟩

/-- C2 (as stated) fails: on the output `"\tx"` the only line is `"\tx"`, it
does not parse, and the error message carries the trimmed `x`, not the raw
line with its tab. -/
theorem Machines_error_omits_raw_line :
    strings.Split "\tx" '\n' = ["\tx"] ∧
    ((sample.ext none).unmarshalMachine (strings.TrimSpace "\tx")).2 ≠ none ∧
    Machines (sample.ext none) (sample.machine ("\tx", none) ("", none)) [] =
      (([], some (.errorf
        "error while parsing \"x\": invalid character 'x' looking for beginning of value")),
        sample.lsRecord) ∧
    ¬ ("\tx".data <:+:
      "error while parsing \"x\": invalid character 'x' looking for beginning of value".data) := by
  refine ⟨by decide, by decide, by decide, ?_⟩
  intro h
  have hmem : '\t' ∈
      "error while parsing \"x\": invalid character 'x' looking for beginning of value".data :=
    h.subset (List.mem_cons_self _ _)
  revert hmem
  decide

theorem Machine.loop_found (name : String) (pre post : List dm.Machine) (m : dm.Machine)
    (hpre : ∀ x ∈ pre, ¬ x.Name = name) (hm : m.Name = name) :
    Machine.loop name (pre ++ m :: post) = some m := by
  induction pre with
  | nil => simp [Machine.loop, hm]
  | cons p pre ih =>
    have hp : ¬ p.Name = name := hpre p (List.mem_cons_self _ _)
    simp only [List.cons_append, Machine.loop, hp, if_false]
    exact ih (fun x hx => hpre x (List.mem_cons_of_mem _ hx))

theorem Machine.loop_none (name : String) (machines : List dm.Machine)
    (h : ∀ x ∈ machines, x.Name ≠ name) : Machine.loop name machines = none := by
  induction machines with
  | nil => rfl
  | cons p ps ih =>
    have hp : ¬ p.Name = name := h p (List.mem_cons_self _ _)
    simp only [Machine.loop, hp, if_false]
    exact ih (fun x hx => h x (List.mem_cons_of_mem _ hx))

theorem Machine_found (ext : Ext ε σ T C) (d : DockerMachine ε σ) (name : String) (w w1 : σ)
    (pre post : List dm.Machine) (m : dm.Machine)
    (hls : Machines ext d w = ((pre ++ m :: post, none), w1))
    (hpre : ∀ x ∈ pre, ¬ x.Name = name) (hm : m.Name = name) :
    Machine ext d name w = ((m, none), w1) := by
  unfold Machine
  rw [hls]
  simp only [Machine.loop_found name pre post m hpre hm]

/-- C3: after a successful listing, `Machine(name)` returns without error the
first listed machine whose `Name` equals `name` when there is one, that
record itself; and when no listed machine has that `Name` it returns the zero
`Machine` and the error `machine <name> not found`. -/
theorem Machine_lookup (ext : Ext ε σ T C) (d : DockerMachine ε σ) (name : String) (w w1 : σ)
    (machines : List dm.Machine) (hls : Machines ext d w = ((machines, none), w1)) :
    ((∃ m ∈ machines, m.Name = name) →
      ∃ pre m post, machines = pre ++ m :: post ∧ (∀ x ∈ pre, x.Name ≠ name) ∧
        m.Name = name ∧ Machine ext d name w = ((m, none), w1)) ∧
    ((∀ m ∈ machines, m.Name ≠ name) →
      Machine ext d name w =
        ((Machine.zero, some (.errorf ("machine " ++ name ++ " not found"))), w1)) := by
  constructor
  · intro h
    obtain ⟨pre, m, post, hsplit, hpre, hm⟩ := exists_first (fun m => m.Name = name) machines h
    refine ⟨pre, m, post, hsplit, hpre, hm, ?_⟩
    rw [hsplit] at hls
    exact Machine_found ext d name w w1 pre post m hls hpre hm
  · intro h
    unfold Machine
    rw [hls]
    simp only [Machine.loop_none name machines h]

theorem Machine_lookup_witness :
    Machines (sample.ext none) sample.lister [] =
      (([sample.m1, sample.m2], none), sample.lsRecord) ∧
    (∃ m ∈ [sample.m1, sample.m2], m.Name = "m2") ∧
    Machine (sample.ext none) sample.lister "m2" [] = ((sample.m2, none), sample.lsRecord) ∧
    (∀ m ∈ [sample.m1, sample.m2], m.Name ≠ "M2") ∧
    Machine (sample.ext none) sample.lister "M2" [] =
      ((Machine.zero, some (.errorf "machine M2 not found")), sample.lsRecord) :=
  ⟨by decide, by decide, by decide, by decide,
   (Machine_lookup (sample.ext none) sample.lister "M2" [] sample.lsRecord
      [sample.m1, sample.m2] (by decide)).2 (by decide)⟩

/-- The map `Env` fills in for a resolved machine and an inspected
configuration. -/
theorem Env_resolved (ext : Ext ε σ T C) (d : DockerMachine ε σ) (name : String) (w w1 w2 : σ)
    (machine : dm.Machine) (config : MachineConfig)
    (hm : Machine ext d name w = ((machine, none), w1))
    (hc : Inspect ext d name w1 = ((config, none), w2)) :
    Env ext d name w =
      ((some ((((StringMap.make.set "DOCKER_TLS_VERIFY"
          (if config.HostOptions.EngineOptions.TLSVerify then "1" else "0")).set
          "DOCKER_HOST" machine.URL).set
          "DOCKER_CERT_PATH" config.HostOptions.AuthOptions.StorePath).set
          "DOCKER_MACHINE_NAME" name), none), w2) := by
  unfold Env
  simp only [hm, hc]

/-- C4 (amended): when the first machine of the listing whose name is `name`
has URL `u`, and the inspected configuration has `tlsVerify = b` and store
path `p`, `Env(name)` succeeds with a map of exactly four keys:
`DOCKER_TLS_VERIFY` is `"1"` if `b` and `"0"` otherwise, `DOCKER_HOST` is `u`,
`DOCKER_CERT_PATH` is `p` and `DOCKER_MACHINE_NAME` is `name`. -/
theorem Env_ok (ext : Ext ε σ T C) (d : DockerMachine ε σ) (name : String) (w w1 w2 : σ)
    (pre post : List dm.Machine) (m : dm.Machine) (config : MachineConfig)
    (hls : Machines ext d w = ((pre ++ m :: post, none), w1))
    (hpre : ∀ x ∈ pre, x.Name ≠ name) (hm : m.Name = name)
    (hc : Inspect ext d name w1 = ((config, none), w2)) :
    ∃ env, Env ext d name w = ((some env, none), w2) ∧
      env "DOCKER_TLS_VERIFY" =
        some (if config.HostOptions.EngineOptions.TLSVerify = true then "1" else "0") ∧
      env "DOCKER_HOST" = some m.URL ∧
      env "DOCKER_CERT_PATH" = some config.HostOptions.AuthOptions.StorePath ∧
      env "DOCKER_MACHINE_NAME" = some name ∧
      ∀ k, env k ≠ none ↔
        k ∈ ["DOCKER_TLS_VERIFY", "DOCKER_HOST", "DOCKER_CERT_PATH", "DOCKER_MACHINE_NAME"] := by
  refine ⟨_, Env_resolved ext d name w w1 w2 m config
    (Machine_found ext d name w w1 pre post m hls hpre hm) hc, ?_, ?_, ?_, ?_, ?_⟩
  · simp [StringMap.set]
  · simp [StringMap.set]
  · simp [StringMap.set]
  · simp [StringMap.set]
  · intro k
    simp only [StringMap.set, StringMap.make, List.mem_cons, List.mem_singleton]
    by_cases h1 : k = "DOCKER_MACHINE_NAME"
    · simp [h1]
    · by_cases h2 : k = "DOCKER_CERT_PATH"
      · simp [h2]
      · by_cases h3 : k = "DOCKER_HOST"
        · simp [h3]
        · by_cases h4 : k = "DOCKER_TLS_VERIFY"
          · simp [h4]
          · simp [h1, h2, h3, h4]

theorem Env_ok_witness :
    Machines (sample.ext none) (sample.machine (sample.lineMy, none) (sample.configDoc, none)) [] =
      (([] ++ sample.mMy :: [], none), sample.lsRecord) ∧
    sample.mMy.Name = "mymachine" ∧
    Inspect (sample.ext none) (sample.machine (sample.lineMy, none) (sample.configDoc, none))
        "mymachine" sample.lsRecord =
      ((sample.config, none),
        sample.lsRecord ++ [exec.Command "docker-machine" ["inspect", "mymachine"]]) ∧
    ∃ env, Env (sample.ext none) (sample.machine (sample.lineMy, none) (sample.configDoc, none))
          "mymachine" [] =
        ((some env, none),
          sample.lsRecord ++ [exec.Command "docker-machine" ["inspect", "mymachine"]]) ∧
      env "DOCKER_TLS_VERIFY" = some "1" ∧
      env "DOCKER_HOST" = some "tcp://1.2.3.4:2376" ∧
      env "DOCKER_CERT_PATH" = some "/home/u/.docker/machine/certs" ∧
      env "DOCKER_MACHINE_NAME" = some "mymachine" ∧
      ∀ k, env k ≠ none ↔
        k ∈ ["DOCKER_TLS_VERIFY", "DOCKER_HOST", "DOCKER_CERT_PATH", "DOCKER_MACHINE_NAME"] :=
  ⟨by decide, by decide, by decide,
   Env_ok (sample.ext none) (sample.machine (sample.lineMy, none) (sample.configDoc, none))
     "mymachine" [] sample.lsRecord _ [] [] sample.mMy sample.config (by decide)
     (by decide) (by decide) (by decide)⟩

/-- C4 (as stated) fails: the listing of `m1` at `tcp://10.0.0.1:2376`
followed by a second `m1` at `tcp://10.0.0.9:2376` contains a machine named
`m1` with the second URL, and `Env("m1")` succeeds with `DOCKER_HOST` set to
the first. -/
theorem Env_host_of_first_match :
    Machines (sample.ext none)
        (sample.machine (sample.line1 ++ "\n" ++ sample.line1b, none) (sample.configDoc, none)) [] =
      (([sample.m1, sample.m1b], none), sample.lsRecord) ∧
    sample.m1b ∈ [sample.m1, sample.m1b] ∧ sample.m1b.Name = "m1" ∧
    sample.m1b.URL = "tcp://10.0.0.9:2376" ∧
    ∃ env, Env (sample.ext none)
          (sample.machine (sample.line1 ++ "\n" ++ sample.line1b, none) (sample.configDoc, none))
          "m1" [] =
        ((some env, none), sample.lsRecord ++ [exec.Command "docker-machine" ["inspect", "m1"]]) ∧
      env "DOCKER_HOST" = some "tcp://10.0.0.1:2376" ∧
      env "DOCKER_HOST" ≠ some "tcp://10.0.0.9:2376" := by
  refine ⟨by decide, by decide, by decide, by decide, _,
    Env_resolved _ _ "m1" [] sample.lsRecord _ sample.m1 sample.config (by decide) (by decide),
    ?_, ?_⟩
  · decide
  · decide

/-- C5: `tlsConfig` hands the loader options whose CA, certificate and key
files are the three paths of `AuthOptions`, unchanged, and whose
`InsecureSkipVerify` is the negation of `EngineOptions.TLSVerify`; what it
returns is what the loader returns on those options. -/
theorem tlsConfig_options (ext : Ext ε σ T C) (config : MachineConfig) (w : σ) :
    tlsConfig ext config w =
      ext.tlsconfigClient
        { CAFile := config.HostOptions.AuthOptions.CaCertPath,
          CertFile := config.HostOptions.AuthOptions.ClientCertPath,
          KeyFile := config.HostOptions.AuthOptions.ClientKeyPath,
          InsecureSkipVerify := !config.HostOptions.EngineOptions.TLSVerify } w ∧
    ((tlsConfig.options config).InsecureSkipVerify = true ↔
      config.HostOptions.EngineOptions.TLSVerify = false) ∧
    ((tlsConfig.options config).InsecureSkipVerify = false ↔
      config.HostOptions.EngineOptions.TLSVerify = true) := by
  refine ⟨rfl, ?_, ?_⟩ <;> simp [tlsConfig.options]

theorem annotateError_expected (ext : Ext ε σ T C) (err : GoError ε) (config : MachineConfig)
    (whilst : String) (h : config.ConfigVersion = 3) :
    annotateError ext err config whilst =
      .errorf ("error while " ++ whilst ++ ": " ++ err.Error ext) := by
  simp [annotateError, annotateError.loop, ExepctedMachineConfigVersions, h]

theorem annotateError_unexpected (ext : Ext ε σ T C) (err : GoError ε) (config : MachineConfig)
    (whilst : String) (h : config.ConfigVersion ≠ 3) :
    annotateError ext err config whilst =
      .errorf ("error while " ++ whilst ++ ", maybe due to unsupported config version " ++
        fmt.d config.ConfigVersion ++ " (expected [3]): " ++ err.Error ext) := by
  have h3 : ¬ (3 : Int) = config.ConfigVersion := fun e => h e.symm
  have hv : fmt.vInts [3] = "[3]" := by decide
  have hlit : " (expected [3]): " = " (expected " ++ "[3]" ++ "): " := by decide
  simp only [annotateError, annotateError.loop, ExepctedMachineConfigVersions, h3, hv, if_false,
    Bool.false_eq_true]
  rw [hlit]
  simp only [String.append_assoc]

theorem client_of_tls_error (ext : Ext ε σ T C) (machine : dm.Machine) (config : MachineConfig)
    (apiVersion : String) (w w1 : σ) (tlsc : Option T) (e : ε)
    (hfail : tlsConfig ext config w = ((tlsc, some e), w1)) :
    client ext machine config apiVersion w =
      ((none, some (annotateError ext (.foreign e) config "tlsConfig")), w1) := by
  unfold client
  rw [hfail]

theorem client_of_tls_config (ext : Ext ε σ T C) (machine : dm.Machine) (config : MachineConfig)
    (apiVersion : String) (w w1 : σ) (tlsc : Option T)
    (hok : tlsConfig ext config w = ((tlsc, none), w1)) :
    client ext machine config apiVersion w =
      (((ext.NewClient machine.URL apiVersion (some { TLSClientConfig := tlsc }) none w1).1.1,
        (ext.NewClient machine.URL apiVersion (some { TLSClientConfig := tlsc }) none w1).1.2.map
          GoError.foreign),
        (ext.NewClient machine.URL apiVersion (some { TLSClientConfig := tlsc }) none w1).2) := by
  unfold client
  rw [hok]

/-- C6: when TLS construction fails with `e`, `client` returns no client and
the annotated error: for a `ConfigVersion` other than 3 the text
`error while tlsConfig, maybe due to unsupported config version <v> (expected [3]): <e>`,
and for `ConfigVersion` 3 the text `error while tlsConfig: <e>`. -/
theorem client_tls_failure (ext : Ext ε σ T C) (machine : dm.Machine) (config : MachineConfig)
    (apiVersion : String) (w w1 : σ) (tlsc : Option T) (e : ε)
    (hfail : tlsConfig ext config w = ((tlsc, some e), w1)) :
    client ext machine config apiVersion w =
      ((none, some (annotateError ext (.foreign e) config "tlsConfig")), w1) ∧
    (config.ConfigVersion ≠ 3 →
      annotateError ext (.foreign e) config "tlsConfig" =
        .errorf ("error while tlsConfig, maybe due to unsupported config version " ++
          fmt.d config.ConfigVersion ++ " (expected [3]): " ++ ext.errorText e)) ∧
    (config.ConfigVersion = 3 →
      annotateError ext (.foreign e) config "tlsConfig" =
        .errorf ("error while tlsConfig: " ++ ext.errorText e)) := by
  refine ⟨client_of_tls_error ext machine config apiVersion w w1 tlsc e hfail, ?_, ?_⟩
  · intro h
    rw [annotateError_unexpected ext _ config _ h]
    rfl
  · intro h
    rw [annotateError_expected ext _ config _ h]
    rfl

theorem client_tls_failure_witness :
    tlsConfig (sample.ext (some "open cert.pem: no such file or directory")) sample.configV2 [] =
      ((none, some "open cert.pem: no such file or directory"), []) ∧
    sample.configV2.ConfigVersion ≠ 3 ∧
    client (sample.ext (some "open cert.pem: no such file or directory")) sample.m1
        sample.configV2 "1.22" [] =
      ((none, some (.errorf ("error while tlsConfig, maybe due to unsupported config version 2" ++
        " (expected [3]): open cert.pem: no such file or directory"))), []) :=
  ⟨by decide, by decide,
   ((client_tls_failure (sample.ext (some "open cert.pem: no such file or directory")) sample.m1
      sample.configV2 "1.22" [] [] none "open cert.pem: no such file or directory"
      (by decide)).1).trans (by decide)⟩

theorem tlsConfig_congr (ext : Ext ε σ T C) (c1 c2 : MachineConfig) (w : σ)
    (hsame : c1.HostOptions = c2.HostOptions) :
    tlsConfig.options c1 = tlsConfig.options c2 ∧ tlsConfig ext c1 w = tlsConfig ext c2 w := by
  have h : tlsConfig.options c1 = tlsConfig.options c2 := by
    simp [tlsConfig.options, hsame]
  exact ⟨h, by unfold tlsConfig; rw [h]⟩

/-- C7: two configurations that differ only in `ConfigVersion` give the same
TLS options and the same result of TLS construction; `client` succeeds for
one exactly when it succeeds for the other, returns the same client value and
leaves the same world; and the two errors are equal or are the annotations
of one and the same TLS failure. -/
theorem client_version_advisory (ext : Ext ε σ T C) (machine : dm.Machine) (apiVersion : String)
    (c1 c2 : MachineConfig) (w : σ) (hsame : c1.HostOptions = c2.HostOptions) :
    tlsConfig.options c1 = tlsConfig.options c2 ∧
    tlsConfig ext c1 w = tlsConfig ext c2 w ∧
    ((client ext machine c1 apiVersion w).1.2 = none ↔
      (client ext machine c2 apiVersion w).1.2 = none) ∧
    (client ext machine c1 apiVersion w).1.1 = (client ext machine c2 apiVersion w).1.1 ∧
    (client ext machine c1 apiVersion w).2 = (client ext machine c2 apiVersion w).2 ∧
    ((client ext machine c1 apiVersion w).1.2 = (client ext machine c2 apiVersion w).1.2 ∨
      ∃ e, (tlsConfig ext c1 w).1.2 = some e ∧
        (client ext machine c1 apiVersion w).1.2 =
          some (annotateError ext (.foreign e) c1 "tlsConfig") ∧
        (client ext machine c2 apiVersion w).1.2 =
          some (annotateError ext (.foreign e) c2 "tlsConfig")) := by
  obtain ⟨hopt, htls⟩ := tlsConfig_congr ext c1 c2 w hsame
  refine ⟨hopt, htls, ?_⟩
  rcases hres : tlsConfig ext c2 w with ⟨⟨tlsc, err⟩, w1⟩
  have hres1 : tlsConfig ext c1 w = ((tlsc, err), w1) := htls.trans hres
  cases err with
  | none =>
    rw [client_of_tls_config ext machine c1 apiVersion w w1 tlsc hres1,
      client_of_tls_config ext machine c2 apiVersion w w1 tlsc hres]
    exact ⟨Iff.rfl, rfl, rfl, Or.inl rfl⟩
  | some e =>
    rw [client_of_tls_error ext machine c1 apiVersion w w1 tlsc e hres1,
      client_of_tls_error ext machine c2 apiVersion w w1 tlsc e hres]
    exact ⟨by simp, rfl, rfl, Or.inr ⟨e, by rw [hres1], rfl, rfl⟩⟩

theorem client_version_advisory_witness :
    sample.config.HostOptions = sample.configV2.HostOptions ∧
    sample.config.ConfigVersion ≠ sample.configV2.ConfigVersion ∧
    ((client (sample.ext none) sample.m1 sample.config "1.22" []).1.2 = none ↔
      (client (sample.ext none) sample.m1 sample.configV2 "1.22" []).1.2 = none) ∧
    (client (sample.ext none) sample.m1 sample.configV2 "1.22" []).1.2 = none :=
  ⟨by decide, by decide,
   (client_version_advisory (sample.ext none) sample.m1 "1.22" sample.config sample.configV2 []
      (by decide)).2.2.1,
   by decide⟩

theorem Machine_world (ext : Ext ε σ T C) (d : DockerMachine ε σ) (name : String) (w : σ) :
    (Machine ext d name w).2 = (RawCommandResult ext d ["ls", "-f", Machines.filter] w).2 := by
  unfold Machine Machines
  rcases RawCommandResult ext d ["ls", "-f", Machines.filter] w with ⟨⟨o, err⟩, w1⟩
  cases err with
  | some e => rfl
  | none =>
    simp only
    rcases Machines.loop ext (strings.Split o '\n') [] with ⟨ms, err2⟩
    cases err2 with
    | some e => rfl
    | none =>
      simp only
      cases Machine.loop name ms <;> rfl

theorem Inspect_world (ext : Ext ε σ T C) (d : DockerMachine ε σ) (name : String) (w : σ) :
    (Inspect ext d name w).2 = (RawCommandResult ext d ["inspect", name] w).2 := by
  unfold Inspect
  rcases RawCommandResult ext d ["inspect", name] w with ⟨⟨o, err⟩, w1⟩
  cases err with
  | some e => rfl
  | none =>
    simp only
    rcases ext.unmarshalMachineConfig o with ⟨c, err2⟩
    cases err2 <;> rfl

/-- C8: `Client(name)` and `Env(name)` stop at the first failure. When
resolving the machine fails they return that very error and no result, and
the world is the one left by the single `ls` run, so no `inspect` command has
been run; when resolving succeeds and `Inspect` fails they return that very
error and no result, and the world is the one left by the `inspect` run, so
nothing was built after it. -/
theorem Client_Env_shortCircuit (ext : Ext ε σ T C) (d : DockerMachine ε σ) (name : String)
    (w : σ) :
    (∀ m e w1, Machine ext d name w = ((m, some e), w1) →
      Client ext d name w = ((none, some e), w1) ∧
      Env ext d name w = ((none, some e), w1) ∧
      w1 = (RawCommandResult ext d ["ls", "-f", Machines.filter] w).2) ∧
    (∀ m w1 config e w2, Machine ext d name w = ((m, none), w1) →
      Inspect ext d name w1 = ((config, some e), w2) →
      Client ext d name w = ((none, some e), w2) ∧
      Env ext d name w = ((none, some e), w2) ∧
      w2 = (RawCommandResult ext d ["inspect", name] w1).2) := by
  constructor
  · intro m e w1 hm
    refine ⟨?_, ?_, ?_⟩
    · unfold Client
      rw [hm]
    · unfold Env
      rw [hm]
    · rw [← Machine_world ext d name w, hm]
  · intro m w1 config e w2 hm hc
    refine ⟨?_, ?_, ?_⟩
    · unfold Client
      rw [hm]
      simp only [hc]
    · unfold Env
      rw [hm]
      simp only [hc]
    · rw [← Inspect_world ext d name w1, hc]

theorem Client_Env_shortCircuit_witness :
    Machine (sample.ext none) sample.lister "m3" [] =
      ((Machine.zero, some (.errorf "machine m3 not found")), sample.lsRecord) ∧
    Client (sample.ext none) sample.lister "m3" [] =
      ((none, some (.errorf "machine m3 not found")), sample.lsRecord) ∧
    exec.Command "docker-machine" ["inspect", "m3"] ∉ sample.lsRecord ∧
    Inspect (sample.ext none) (sample.machine (sample.listing, none) ("", some "exit status 1"))
        "m1" sample.lsRecord =
      ((MachineConfig.zero, some (.foreign "exit status 1")),
        sample.lsRecord ++ [exec.Command "docker-machine" ["inspect", "m1"]]) ∧
    Env (sample.ext none) (sample.machine (sample.listing, none) ("", some "exit status 1"))
        "m1" [] =
      ((none, some (.foreign "exit status 1")),
        sample.lsRecord ++ [exec.Command "docker-machine" ["inspect", "m1"]]) :=
  ⟨by decide,
   ((Client_Env_shortCircuit (sample.ext none) sample.lister "m3" []).1 Machine.zero
      (.errorf "machine m3 not found") sample.lsRecord (by decide)).1,
   by decide, by decide,
   ((Client_Env_shortCircuit (sample.ext none)
      (sample.machine (sample.listing, none) ("", some "exit status 1")) "m1" []).2 sample.m1
      sample.lsRecord MachineConfig.zero (.foreign "exit status 1") _ (by decide) (by decide)).2.1⟩

/-- C9: `RawCommandResult` returns what the executor in use returns, output
and error alike; when that is an output `o` with an error `e`, `Machines`
returns no machines and `e` itself, and `Inspect` returns the zero
`MachineConfig` and `e` itself, whatever `o` holds. -/
theorem runner_failure (ext : Ext ε σ T C) (d : DockerMachine ε σ) (f : dm.commandExecutor ε σ)
    (arg : List String) (name : String) (w w1 : σ) (o : String) (e : ε)
    (hf : d.commandExecutor = some f ∨
      (d.commandExecutor = none ∧ f = defaultCommandExecutor ext)) :
    (f (exec.Command d.Path arg) w = ((o, some e), w1) →
      RawCommandResult ext d arg w = ((o, some e), w1)) ∧
    (f (exec.Command d.Path ["ls", "-f", Machines.filter]) w = ((o, some e), w1) →
      Machines ext d w = (([], some (.foreign e)), w1)) ∧
    (f (exec.Command d.Path ["inspect", name]) w = ((o, some e), w1) →
      Inspect ext d name w = ((MachineConfig.zero, some (.foreign e)), w1)) := by
  have hraw : ∀ a, RawCommandResult ext d a w = f (exec.Command d.Path a) w := by
    intro a
    unfold RawCommandResult rawCommandResult
    rcases hf with h | ⟨h, rfl⟩ <;> rw [h]
  refine ⟨?_, ?_, ?_⟩
  · intro h
    rw [hraw, h]
  · intro h
    unfold Machines
    rw [hraw, h]
  · intro h
    unfold Inspect
    rw [hraw, h]

theorem runner_failure_witness :
    sample.run (sample.listing, some "exit status 1") (sample.configDoc, some "exit status 1")
        (exec.Command "docker-machine" ["ls", "-f", Machines.filter]) [] =
      ((sample.listing, some "exit status 1"), sample.lsRecord) ∧
    Machines (sample.ext none)
        (sample.machine (sample.listing, some "exit status 1")
          (sample.configDoc, some "exit status 1")) [] =
      (([], some (.foreign "exit status 1")), sample.lsRecord) :=
  ⟨by decide,
   (runner_failure (sample.ext none)
      (sample.machine (sample.listing, some "exit status 1")
        (sample.configDoc, some "exit status 1"))
      (sample.run (sample.listing, some "exit status 1") (sample.configDoc, some "exit status 1"))
      [] "m1" [] sample.lsRecord sample.listing "exit status 1" (Or.inl rfl)).2.1 (by decide)⟩

theorem nonBlankLines_of_edit {o o2 : String} (h : PaddingEdit o o2) :
    nonBlankLines o = nonBlankLines o2 := by
  cases h with
  | pad pre post p1 l p2 h1 hl h2 =>
    simp only [nonBlankLines_Join, List.flatMap_append, List.flatMap_cons,
      nonBlankLines_pad p1 l p2 h1 hl h2]
  | blank pre post b hb =>
    simp only [nonBlankLines_Join, List.flatMap_append, List.flatMap_cons,
      nonBlankLines_blank b hb, List.nil_append]
  | newline o => exact (nonBlankLines_newline o).symm

theorem EqvGen_nonBlankLines_eq {o o2 : String} (h : Relation.EqvGen PaddingEdit o o2) :
    nonBlankLines o = nonBlankLines o2 := by
  induction h with
  | rel x y hxy => exact nonBlankLines_of_edit hxy
  | refl x => rfl
  | symm x y _ ih => exact ih.symm
  | trans x y z _ _ ih1 ih2 => exact ih1.trans ih2

/-- C10: two listing outputs that differ by any number of padding edits,
each added or removed (white space around a line, white-space-only lines, a
final line feed), give the same result of `Machines`, list and error alike;
and an output of white space only gives the empty list and no error. -/
theorem Machines_padding_insensitive (ext : Ext ε σ T C) (d d2 : DockerMachine ε σ)
    (w v w2 v2 : σ) (o o2 : String)
    (hrun : RawCommandResult ext d ["ls", "-f", Machines.filter] w = ((o, none), v))
    (hrun2 : RawCommandResult ext d2 ["ls", "-f", Machines.filter] w2 = ((o2, none), v2)) :
    (Relation.EqvGen PaddingEdit o o2 → (Machines ext d w).1 = (Machines ext d2 w2).1) ∧
    (strings.AllSpace o → (Machines ext d w).1 = ([], none)) := by
  constructor
  · intro h
    rw [Machines_raw_ok ext d w v o hrun, Machines_raw_ok ext d2 w2 v2 o2 hrun2,
      EqvGen_nonBlankLines_eq h]
  · intro h
    rw [Machines_raw_ok ext d w v o hrun, nonBlankLines_blank o h]
    rfl

theorem Machines_padding_insensitive_witness :
    Relation.EqvGen PaddingEdit (strings.Join [sample.line1, "x", sample.line2] '\n')
      (strings.Join [sample.line1, "\tx\r", sample.line2] '\n') ∧
    (Machines (sample.ext none)
        (sample.machine (strings.Join [sample.line1, "x", sample.line2] '\n', none) ("", none))
        []).1 =
      (Machines (sample.ext none)
        (sample.machine (strings.Join [sample.line1, "\tx\r", sample.line2] '\n', none)
          ("", none)) []).1 ∧
    strings.AllSpace " \r\n\t\n" ∧
    (Machines (sample.ext none) (sample.machine (" \r\n\t\n", none) ("", none)) []).1 =
      ([], none) :=
  ⟨Relation.EqvGen.rel _ _
      (PaddingEdit.pad [sample.line1] [sample.line2] "\t" "x" "\r" (by decide) (by decide)
        (by decide)),
   (Machines_padding_insensitive (sample.ext none)
      (sample.machine (strings.Join [sample.line1, "x", sample.line2] '\n', none) ("", none))
      (sample.machine (strings.Join [sample.line1, "\tx\r", sample.line2] '\n', none) ("", none))
      [] sample.lsRecord [] sample.lsRecord
      (strings.Join [sample.line1, "x", sample.line2] '\n')
      (strings.Join [sample.line1, "\tx\r", sample.line2] '\n') (by decide) (by decide)).1
      (Relation.EqvGen.rel _ _
        (PaddingEdit.pad [sample.line1] [sample.line2] "\t" "x" "\r" (by decide) (by decide)
          (by decide))),
   by decide,
   (Machines_padding_insensitive (sample.ext none)
      (sample.machine (" \r\n\t\n", none) ("", none)) (sample.machine (" \r\n\t\n", none) ("", none))
      [] sample.lsRecord [] sample.lsRecord " \r\n\t\n" " \r\n\t\n" (by decide) (by decide)).2
      (by decide)⟩

end DockerMachine

end dm
